import Mathlib

/-!
Verification development for the chunk module of the StarlightGlimmer
repository (src/objects/chunks.py). The Python module is shallowly
embedded: grid arithmetic uses Int with Int.fdiv for the Python floor
division, byte buffers are lists of Nat, and the external palette tables
(utils/colors.py, absent from the sources) are passed as abstract
functions from palette index to an RGB triple, following the design
document, which treats them as constant lookup data supplied from
outside.
-/

namespace Chunks

/-- An RGB color triple. -/
structure RGB where
  r : Nat
  g : Nat
  b : Nat
deriving DecidableEq, Repr

/-- The closed set of chunk variants of the module. -/
inductive Variant
  | bigChunk
  | chunkPz
  | pxlsBoard
  | bigChunkPP
deriving DecidableEq, Repr

/-- A chunk value: variant tag plus integer grid coordinates, as built by
the Python constructors. -/
structure Chunk where
  variant : Variant
  x : Int
  y : Int
deriving DecidableEq, Repr

/-- Embedding of the Python range(a, b + 1): the integers from a to b
inclusive, in increasing order. -/
def intRange (a b : Int) : List Int :=
  (List.range (b - a + 1).toNat).map (fun (i : Nat) => a + (i : Int))

/-- Embedding of BigChunk.p_x: self.x * 960 - 448. -/
def bigChunkPX (x : Int) : Int := x * 960 - 448

/-- Embedding of BigChunk.p_y: self.y * 960 - 448. -/
def bigChunkPY (y : Int) : Int := y * 960 - 448

/-- Embedding of ChunkPz.p_x: self.x * 512 - 4096. -/
def chunkPzPX (x : Int) : Int := x * 512 - 4096

/-- Embedding of ChunkPz.p_y: self.y * 512 - 4096. -/
def chunkPzPY (y : Int) : Int := y * 512 - 4096

/-- Embedding of PxlsBoard.p_x, which returns the constant 0. -/
def pxlsBoardPX : Int := 0

/-- Embedding of PxlsBoard.p_y, which returns the constant 0. -/
def pxlsBoardPY : Int := 0

/-- Embedding of BigChunk.width (the property returns 960). -/
def bigChunkWidth : Int := 960

/-- Embedding of BigChunk.height (the property returns 960). -/
def bigChunkHeight : Int := 960

/-- Embedding of ChunkPz.width (the property returns 512). -/
def chunkPzWidth : Int := 512

/-- Embedding of ChunkPz.height (the property returns 512). -/
def chunkPzHeight : Int := 512

/-- Embedding of BigChunk.is_in_bounds: -1043 <= x < 1043 and
-1043 <= y < 1043. -/
def bigChunkIsInBounds (x y : Int) : Bool :=
  (-1043 ≤ x && x < 1043) && (-1043 ≤ y && y < 1043)

/-- Embedding of ChunkPz.is_in_bounds: 0 <= x < 16 and 0 <= y < 16. -/
def chunkPzIsInBounds (x y : Int) : Bool :=
  (0 ≤ x && x < 16) && (0 ≤ y && y < 16)

/-- Embedding of PxlsBoard.is_in_bounds, which returns True. -/
def pxlsBoardIsInBounds : Bool := true

/-- Embedding of BigChunk.get_intersecting. The Python code rebinds
dx to (x + dx + 448) // 960, dy likewise, then x to (x + 448) // 960 and
y to (y + 448) // 960, and appends BigChunk(ix, iy) for iy in
range(y, dy + 1) and ix in range(x, dx + 1); it returns the list and the
pair (dx - x + 1, dy - y + 1). Chunks are represented by their grid
coordinate pairs. -/
def bigChunkGetIntersecting (x y dx dy : Int) :
    List (Int × Int) × (Int × Int) :=
  let dx2 := (x + dx + 448).fdiv 960
  let dy2 := (y + dy + 448).fdiv 960
  let x0 := (x + 448).fdiv 960
  let y0 := (y + 448).fdiv 960
  ((intRange y0 dy2).flatMap (fun iy =>
      (intRange x0 dx2).map (fun ix => (ix, iy))),
   (dx2 - x0 + 1, dy2 - y0 + 1))

/-- Embedding of ChunkPz.get_intersecting. The Python code first adds
4096 to x and to y, then rebinds dx to (x + dx) // 512, dy likewise,
x to x // 512 and y to y // 512, and appends ChunkPz(ix, iy) over the
same double loop, returning the list and (dx - x + 1, dy - y + 1). -/
def chunkPzGetIntersecting (x y dx dy : Int) :
    List (Int × Int) × (Int × Int) :=
  let x2 := x + 4096
  let y2 := y + 4096
  let dx2 := (x2 + dx).fdiv 512
  let dy2 := (y2 + dy).fdiv 512
  let x0 := x2.fdiv 512
  let y0 := y2.fdiv 512
  ((intRange y0 dy2).flatMap (fun iy =>
      (intRange x0 dx2).map (fun ix => (ix, iy))),
   (dx2 - x0 + 1, dy2 - y0 + 1))

/-- Embedding of BigChunkPP.get_intersecting, a verbatim copy of
BigChunk.get_intersecting in the source except that it appends
BigChunkPP objects. -/
def bigChunkPPGetIntersecting (x y dx dy : Int) :
    List (Int × Int) × (Int × Int) :=
  let dx2 := (x + dx + 448).fdiv 960
  let dy2 := (y + dy + 448).fdiv 960
  let x0 := (x + 448).fdiv 960
  let y0 := (y + 448).fdiv 960
  ((intRange y0 dy2).flatMap (fun iy =>
      (intRange x0 dx2).map (fun ix => (ix, iy))),
   (dx2 - x0 + 1, dy2 - y0 + 1))

/-- Embedding of PxlsBoard.get_intersecting, which ignores its arguments
and returns a singleton list holding one fresh board chunk at grid
coordinate (0, 0) and the shape (1, 1). -/
def pxlsBoardGetIntersecting (_x _y _dx _dy : Int) :
    List Chunk × (Int × Int) :=
  ([⟨Variant.pxlsBoard, 0, 0⟩], (1, 1))

/-- Common shape of the fixed-size tilers, parameterized by the tile
size and the origin offset of the variant. Each concrete tiler is
proved equal to an instance of this function. -/
def tileGrid (size off x y dx dy : Int) :
    List (Int × Int) × (Int × Int) :=
  let x1 := (x + dx + off).fdiv size
  let y1 := (y + dy + off).fdiv size
  let x0 := (x + off).fdiv size
  let y0 := (y + off).fdiv size
  ((intRange y0 y1).flatMap (fun iy =>
      (intRange x0 x1).map (fun ix => (ix, iy))),
   (x1 - x0 + 1, y1 - y0 + 1))

theorem bigChunkGetIntersecting_eq_tileGrid (x y dx dy : Int) :
    bigChunkGetIntersecting x y dx dy = tileGrid 960 448 x y dx dy := rfl

theorem bigChunkPPGetIntersecting_eq_tileGrid (x y dx dy : Int) :
    bigChunkPPGetIntersecting x y dx dy = tileGrid 960 448 x y dx dy := rfl

theorem chunkPzGetIntersecting_eq_tileGrid (x y dx dy : Int) :
    chunkPzGetIntersecting x y dx dy = tileGrid 512 4096 x y dx dy := by
  have hx : x + 4096 + dx = x + dx + 4096 := by ring
  have hy : y + 4096 + dy = y + dy + 4096 := by ring
  simp only [chunkPzGetIntersecting, tileGrid, hx, hy]

theorem mem_intRange {a b k : Int} : k ∈ intRange a b ↔ a ≤ k ∧ k ≤ b := by
  constructor
  · intro hk
    obtain ⟨i, hi, rfl⟩ := List.mem_map.mp hk
    have := List.mem_range.mp hi
    omega
  · intro h
    exact List.mem_map.mpr
      ⟨(k - a).toNat, List.mem_range.mpr (by omega), by omega⟩

theorem mem_tileGrid {size off x y dx dy gx gy : Int} :
    (gx, gy) ∈ (tileGrid size off x y dx dy).1 ↔
      ((x + off).fdiv size ≤ gx ∧ gx ≤ (x + dx + off).fdiv size ∧
       (y + off).fdiv size ≤ gy ∧ gy ≤ (y + dy + off).fdiv size) := by
  simp only [tileGrid, List.mem_flatMap, List.mem_map, Prod.mk.injEq]
  constructor
  · rintro ⟨iy, hiy, ix, hix, rfl, rfl⟩
    have h1 := mem_intRange.mp hiy
    have h2 := mem_intRange.mp hix
    exact ⟨h2.1, h2.2, h1.1, h1.2⟩
  · rintro ⟨h1, h2, h3, h4⟩
    exact ⟨gy, mem_intRange.mpr ⟨h3, h4⟩, gx, mem_intRange.mpr ⟨h1, h2⟩,
      rfl, rfl⟩

theorem le_fdiv_iff {a g s : Int} (hs : 0 < s) :
    g ≤ a.fdiv s ↔ g * s ≤ a := by
  rw [Int.fdiv_eq_ediv a (le_of_lt hs)]
  exact Int.le_ediv_iff_mul_le hs

theorem fdiv_le_iff {a g s : Int} (hs : 0 < s) :
    a.fdiv s ≤ g ↔ a < (g + 1) * s := by
  constructor
  · intro h
    by_contra hc
    push_neg at hc
    have := (le_fdiv_iff hs).mpr hc
    omega
  · intro h
    by_contra hc
    push_neg at hc
    have : g + 1 ≤ a.fdiv s := by omega
    have := (le_fdiv_iff hs).mp this
    omega

/-- The overlap predicate of the design document: the pixel footprint of
the chunk at grid coordinate (gx, gy) for a variant with the given tile
size and origin offset, which is the half-open square starting at
grid coordinate times size minus offset, meets the half-open rectangle
from (x, y) with extents (dx, dy). -/
def footprintOverlaps (size off gx gy x y dx dy : Int) : Prop :=
  (gx * size - off < x + dx ∧ x < gx * size - off + size) ∧
  (gy * size - off < y + dy ∧ y < gy * size - off + size)

instance (size off gx gy x y dx dy : Int) :
    Decidable (footprintOverlaps size off gx gy x y dx dy) := by
  unfold footprintOverlaps
  infer_instance

theorem mem_tileGrid_iff_overlaps {size off x y dx dy gx gy : Int}
    (hs : 0 < size) :
    (gx, gy) ∈ (tileGrid size off x y dx dy).1 ↔
      footprintOverlaps size off gx gy x y (dx + 1) (dy + 1) := by
  rw [mem_tileGrid]
  unfold footprintOverlaps
  rw [le_fdiv_iff hs, le_fdiv_iff hs, fdiv_le_iff hs, fdiv_le_iff hs]
  constructor
  · rintro ⟨h1, h2, h3, h4⟩
    refine ⟨⟨by nlinarith, by nlinarith⟩, ⟨by nlinarith, by nlinarith⟩⟩
  · rintro ⟨⟨h1, h2⟩, h3, h4⟩
    refine ⟨by nlinarith, by nlinarith, by nlinarith, by nlinarith⟩

theorem grid_flatMap_eq {α : Type} (f : Nat → Nat → α) (R C : Nat) :
    (List.range R).flatMap (fun r => (List.range C).map (fun c => f c r))
      = (List.range (R * C)).map (fun k => f (k % C) (k / C)) := by
  induction R generalizing f with
  | zero => simp
  | succ R ih =>
    rcases Nat.eq_zero_or_pos C with hC | hC
    · subst hC
      simp
    · have hsplit : (R + 1) * C = C + R * C := by ring
      rw [List.range_succ_eq_map, List.flatMap_cons, hsplit, List.range_add,
        List.map_append, List.flatMap_map]
      congr 1
      · apply List.map_congr_left
        intro a ha
        have := List.mem_range.mp ha
        rw [Nat.mod_eq_of_lt this, Nat.div_eq_of_lt this]
      · rw [ih (fun c r => f c (r + 1)), List.map_map]
        apply List.map_congr_left
        intro a _
        simp only [Function.comp_apply]
        rw [Nat.add_mod_left, Nat.add_comm C a, Nat.add_div_right _ hC]

theorem intRange_grid_eq (x0 x1 y0 y1 : Int) :
    (intRange y0 y1).flatMap (fun iy =>
        (intRange x0 x1).map (fun ix => (ix, iy)))
      = (List.range ((y1 - y0 + 1).toNat * (x1 - x0 + 1).toNat)).map
          (fun k => (x0 + ((k % (x1 - x0 + 1).toNat : Nat) : Int),
                     y0 + ((k / (x1 - x0 + 1).toNat : Nat) : Int))) := by
  have h : (intRange y0 y1).flatMap (fun iy =>
        (intRange x0 x1).map (fun ix => (ix, iy)))
      = (List.range (y1 - y0 + 1).toNat).flatMap (fun (r : Nat) =>
          (List.range (x1 - x0 + 1).toNat).map
            (fun (c : Nat) => ((x0 + c : Int), (y0 + r : Int)))) := by
    unfold intRange
    rw [List.flatMap_map]
    apply List.flatMap_congr
    intro r _
    rw [List.map_map]
    rfl
  rw [h, grid_flatMap_eq (fun (c r : Nat) => ((x0 + c : Int), (y0 + r : Int)))]

/-- The row-major indexing property: element k of the list is the grid
coordinate whose column is k modulo cols counted from x0 and whose row
is k divided by cols counted from y0. -/
def rowMajorFrom (x0 y0 : Int) (cols : Nat) (l : List (Int × Int)) : Prop :=
  ∀ k, k < l.length →
    l[k]? = some (x0 + ((k % cols : Nat) : Int), y0 + ((k / cols : Nat) : Int))

theorem fdiv_le_fdiv {a b s : Int} (hs : 0 < s) (h : a ≤ b) :
    a.fdiv s ≤ b.fdiv s := by
  rw [Int.fdiv_eq_ediv _ hs.le, Int.fdiv_eq_ediv _ hs.le]
  exact Int.ediv_le_ediv hs h

theorem tileGrid_length_shape {size off : Int} (x y dx dy : Int)
    (hs : 0 < size) (hdx : 0 ≤ dx) (hdy : 0 ≤ dy) :
    (((tileGrid size off x y dx dy).1.length : Int)
        = (tileGrid size off x y dx dy).2.1 *
          (tileGrid size off x y dx dy).2.2) ∧
    rowMajorFrom ((x + off).fdiv size) ((y + off).fdiv size)
      (tileGrid size off x y dx dy).2.1.toNat
      (tileGrid size off x y dx dy).1 := by
  have hx01 : (x + off).fdiv size ≤ (x + dx + off).fdiv size :=
    fdiv_le_fdiv hs (by omega)
  have hy01 : (y + off).fdiv size ≤ (y + dy + off).fdiv size :=
    fdiv_le_fdiv hs (by omega)
  simp only [tileGrid, intRange_grid_eq]
  constructor
  · rw [List.length_map, List.length_range]
    push_cast
    rw [Int.toNat_of_nonneg (by omega), Int.toNat_of_nonneg (by omega)]
    ring
  · intro k hk
    rw [List.length_map, List.length_range] at hk
    rw [List.getElem?_map, List.getElem?_range hk]
    rfl

/-- Embedding of Chunky eq from the source. The Python guard reads
type(other) is BigChunk or type(other is ChunkPz). The second operand
takes the type of the boolean value (other is ChunkPz), and a class
object is always truthy, so the guard holds for every operand and the
coordinate comparison branch is always taken, whatever the variant of
either side. -/
def chunkyEq (a b : Chunk) : Bool :=
  if (b.variant = Variant.bigChunk) ∨ True then
    a.y == b.y && a.x == b.x
  else
    false

/-- Embedding of Chunky hash, which hashes the tuple (x, y): the hash
value is a function of the coordinate pair alone, modelled by the pair
itself. -/
def chunkyHash (c : Chunk) : Int × Int := (c.x, c.y)

/-- C1 counterexample: the claim promises exactly the chunks meeting the
half-open rectangle. For the BigChunk rectangle with origin (-448, -448)
and extents (960, 960) the returned list contains grid coordinate
(1, 0), whose pixel footprint starts at column 512 and therefore does
not meet the half-open rectangle, which ends at column 512 exclusive. -/
theorem c1_exact_halfopen_counterexample :
    ((1 : Int), (0 : Int)) ∈ (bigChunkGetIntersecting (-448) (-448) 960 960).1 ∧
    ¬ footprintOverlaps 960 448 1 0 (-448) (-448) 960 960 := by
  constructor
  · decide
  · decide

/-- C1 (amended): for each fixed-size variant, get_intersecting returns
exactly the chunks whose pixel footprint meets the closed rectangle
from (origin_x, origin_y) to (origin_x + extent_x, origin_y + extent_y)
inclusive, that is the half-open rectangle with both extents enlarged by
one, because the code floor-divides the exclusive end origin + extent
rather than the inclusive end origin + extent - 1. -/
theorem c1_tiling_closed_rect :
    (∀ x y dx dy gx gy : Int,
        (gx, gy) ∈ (bigChunkGetIntersecting x y dx dy).1 ↔
          footprintOverlaps 960 448 gx gy x y (dx + 1) (dy + 1)) ∧
    (∀ x y dx dy gx gy : Int,
        (gx, gy) ∈ (bigChunkPPGetIntersecting x y dx dy).1 ↔
          footprintOverlaps 960 448 gx gy x y (dx + 1) (dy + 1)) ∧
    (∀ x y dx dy gx gy : Int,
        (gx, gy) ∈ (chunkPzGetIntersecting x y dx dy).1 ↔
          footprintOverlaps 512 4096 gx gy x y (dx + 1) (dy + 1)) := by
  refine ⟨fun x y dx dy gx gy => ?_, fun x y dx dy gx gy => ?_,
    fun x y dx dy gx gy => ?_⟩
  · rw [bigChunkGetIntersecting_eq_tileGrid]
    exact mem_tileGrid_iff_overlaps (by norm_num)
  · rw [bigChunkPPGetIntersecting_eq_tileGrid]
    exact mem_tileGrid_iff_overlaps (by norm_num)
  · rw [chunkPzGetIntersecting_eq_tileGrid]
    exact mem_tileGrid_iff_overlaps (by norm_num)

/-- C2: for every variant and every rectangle with positive extents, the
returned chunk list has length exactly columns times rows as reported in
the returned shape, and element k of the list sits at grid column
x0 + k mod cols and grid row y0 + k div cols, which is strict row-major
order. BoundedBoard returns the singleton list with shape (1, 1). -/
theorem c2_length_rowmajor (x y dx dy : Int) (hdx : 0 < dx)
    (hdy : 0 < dy) :
    (((bigChunkGetIntersecting x y dx dy).1.length : Int)
        = (bigChunkGetIntersecting x y dx dy).2.1 *
          (bigChunkGetIntersecting x y dx dy).2.2 ∧
      rowMajorFrom ((x + 448).fdiv 960) ((y + 448).fdiv 960)
        (bigChunkGetIntersecting x y dx dy).2.1.toNat
        (bigChunkGetIntersecting x y dx dy).1) ∧
    (((bigChunkPPGetIntersecting x y dx dy).1.length : Int)
        = (bigChunkPPGetIntersecting x y dx dy).2.1 *
          (bigChunkPPGetIntersecting x y dx dy).2.2 ∧
      rowMajorFrom ((x + 448).fdiv 960) ((y + 448).fdiv 960)
        (bigChunkPPGetIntersecting x y dx dy).2.1.toNat
        (bigChunkPPGetIntersecting x y dx dy).1) ∧
    (((chunkPzGetIntersecting x y dx dy).1.length : Int)
        = (chunkPzGetIntersecting x y dx dy).2.1 *
          (chunkPzGetIntersecting x y dx dy).2.2 ∧
      rowMajorFrom ((x + 4096).fdiv 512) ((y + 4096).fdiv 512)
        (chunkPzGetIntersecting x y dx dy).2.1.toNat
        (chunkPzGetIntersecting x y dx dy).1) ∧
    ((pxlsBoardGetIntersecting x y dx dy).1.length = 1 ∧
      (pxlsBoardGetIntersecting x y dx dy).2 = (1, 1)) := by
  refine ⟨?_, ?_, ?_, rfl, rfl⟩
  · rw [bigChunkGetIntersecting_eq_tileGrid]
    exact tileGrid_length_shape x y dx dy (by norm_num) hdx.le hdy.le
  · rw [bigChunkPPGetIntersecting_eq_tileGrid]
    exact tileGrid_length_shape x y dx dy (by norm_num) hdx.le hdy.le
  · rw [chunkPzGetIntersecting_eq_tileGrid]
    exact tileGrid_length_shape x y dx dy (by norm_num) hdx.le hdy.le

/-- C2 witness: the theorem applied at the concrete rectangle from
(0, 0) with extents (1, 1) for BigChunk. -/
theorem c2_length_rowmajor_witness :
    ((bigChunkGetIntersecting 0 0 1 1).1.length : Int)
      = (bigChunkGetIntersecting 0 0 1 1).2.1 *
        (bigChunkGetIntersecting 0 0 1 1).2.2 :=
  (c2_length_rowmajor 0 0 1 1 (by norm_num) (by norm_num)).1.1

/-- C5: the pixel-space origin of every variant is grid coordinate times
tile size minus the variant offset, 960 and 448 for BigChunk and its
BigChunkPP specialization (which inherits p_x and p_y unchanged), 512
and 4096 for ChunkPz, and offset 0 for the board variant, whose sole
grid coordinate is (0, 0) so that its origin is 0 for any runtime board
width w. All are plain functions of the grid coordinate. -/
theorem c5_pixel_origin (x y w : Int) :
    bigChunkPX x = x * bigChunkWidth - 448 ∧
    bigChunkPY y = y * bigChunkHeight - 448 ∧
    chunkPzPX x = x * chunkPzWidth - 4096 ∧
    chunkPzPY y = y * chunkPzHeight - 4096 ∧
    pxlsBoardPX = 0 * w - 0 ∧
    pxlsBoardPY = 0 * w - 0 := by
  refine ⟨rfl, rfl, rfl, rfl, ?_, ?_⟩
  · unfold pxlsBoardPX
    ring
  · unfold pxlsBoardPY
    ring

/-- C6 counterexample: a BigChunk and a ChunkPz chunk at the same grid
coordinate compare equal under the source eq, although their variants
are distinct, because the truthy type test in the guard always passes. -/
theorem c6_cross_variant_counterexample :
    chunkyEq ⟨Variant.bigChunk, 0, 0⟩ ⟨Variant.chunkPz, 0, 0⟩ = true ∧
    Variant.bigChunk ≠ Variant.chunkPz := by
  constructor
  · decide
  · decide

/-- C6 (amended): equality compares the grid coordinates alone for every
pair of chunks, whatever their variants, since the guard in the source
is always satisfied; hashing is a function of the coordinate pair, so
equal chunks have equal hashes. -/
theorem c6_eq_by_coords_hash (a b : Chunk) :
    (chunkyEq a b = true ↔ a.x = b.x ∧ a.y = b.y) ∧
    (chunkyEq a b = true → chunkyHash a = chunkyHash b) := by
  have heq : chunkyEq a b = true ↔ a.x = b.x ∧ a.y = b.y := by
    simp only [chunkyEq, or_true, if_true, Bool.and_eq_true, beq_iff_eq]
    tauto
  refine ⟨heq, fun h => ?_⟩
  obtain ⟨h1, h2⟩ := heq.mp h
  simp only [chunkyHash, h1, h2]

/-- C6 witness: the amended theorem applied to two equal BigChunk values
at grid coordinate (2, 3). -/
theorem c6_eq_by_coords_hash_witness :
    chunkyHash ⟨Variant.bigChunk, 2, 3⟩ = chunkyHash ⟨Variant.bigChunk, 2, 3⟩ :=
  (c6_eq_by_coords_hash ⟨Variant.bigChunk, 2, 3⟩ ⟨Variant.bigChunk, 2, 3⟩).2
    (by decide)

/-- C7: the board variant ignores the rectangle entirely and returns the
singleton chunk list together with grid shape (1, 1). -/
theorem c7_board_single_chunk (x y dx dy : Int) :
    (pxlsBoardGetIntersecting x y dx dy).1 = [⟨Variant.pxlsBoard, 0, 0⟩] ∧
    (pxlsBoardGetIntersecting x y dx dy).1.length = 1 ∧
    (pxlsBoardGetIntersecting x y dx dy).2 = (1, 1) :=
  ⟨rfl, rfl, rfl⟩

/-- C10: the tilers emit one chunk for every grid coordinate in the
computed inclusive range and never consult is_in_bounds; concretely, the
BigChunk rectangle starting at pixel 1000832 yields the chunk at grid
column 1043, which fails is_in_bounds, and the ChunkPz rectangle
starting at pixel 4096 yields the chunk at grid column 16, which fails
is_in_bounds, so the caller must filter. -/
theorem c10_no_bounds_filter :
    (∀ x y dx dy gx gy : Int,
        (gx, gy) ∈ (bigChunkGetIntersecting x y dx dy).1 ↔
          ((x + 448).fdiv 960 ≤ gx ∧ gx ≤ (x + dx + 448).fdiv 960 ∧
           (y + 448).fdiv 960 ≤ gy ∧ gy ≤ (y + dy + 448).fdiv 960)) ∧
    (∀ x y dx dy gx gy : Int,
        (gx, gy) ∈ (chunkPzGetIntersecting x y dx dy).1 ↔
          ((x + 4096).fdiv 512 ≤ gx ∧ gx ≤ (x + dx + 4096).fdiv 512 ∧
           (y + 4096).fdiv 512 ≤ gy ∧ gy ≤ (y + dy + 4096).fdiv 512)) ∧
    (((1043 : Int), (0 : Int)) ∈ (bigChunkGetIntersecting 1000832 0 1 1).1 ∧
      bigChunkIsInBounds 1043 0 = false) ∧
    (((16 : Int), (8 : Int)) ∈ (chunkPzGetIntersecting 4096 0 1 1).1 ∧
      chunkPzIsInBounds 16 8 = false) := by
  refine ⟨fun x y dx dy gx gy => ?_, fun x y dx dy gx gy => ?_,
    ⟨?_, ?_⟩, ⟨?_, ?_⟩⟩
  · rw [bigChunkGetIntersecting_eq_tileGrid]
    exact mem_tileGrid
  · rw [chunkPzGetIntersecting_eq_tileGrid]
    exact mem_tileGrid
  · decide
  · decide
  · decide
  · decide

/-- The state of the BigChunk decode loop: the byte cursor into the
source stream and the destination raster as a function from pixel
coordinates to RGB. -/
structure LoadState where
  pos : Nat
  img : Nat → Nat → RGB

/-- Decoding of one pixel of a 64 by 64 sub-block stored as 2048 bytes
of 4-bit packed palette indices, two pixels per byte with the high
nibble first (the raw codec P;4), then resolved through the palette that
putpalette attached; the attached list is the 16-entry table repeated 16
times, so index i resolves to entry i mod 16. -/
def decodeBlockPixel (pal : Nat → RGB) (bytes : Nat → Nat)
    (px py : Nat) : RGB :=
  let b := bytes ((py * 64 + px) / 2)
  let idx := if px % 2 = 0 then b / 16 else b % 16
  pal (idx % 16)

/-- The bound test of BigChunk.load for the sub-block at local offset
(cx, cy): the code checks the top-left corner of the block against the
global canvas bound of plus or minus 1000000 on both axes. -/
def blockCornerIn (x y : Int) (cx cy : Nat) : Prop :=
  (-1000000 ≤ bigChunkPX x + cx ∧ bigChunkPX x + cx < 1000000) ∧
  (-1000000 ≤ bigChunkPY y + cy ∧ bigChunkPY y + cy < 1000000)

instance (x y : Int) (cx cy : Nat) : Decidable (blockCornerIn x y cx cy) := by
  unfold blockCornerIn
  infer_instance

/-- One iteration of the BigChunk.load double loop at sub-block offset
(cx, cy) = p. When the corner test fails the code seeks 2048 bytes
forward and continues, leaving the raster untouched; otherwise it reads
2048 bytes, decodes them as 4-bit packed indices through the dynamic
class attribute palette selfPal, and pastes the 64 by 64 block at
(cx, cy). -/
def bigChunkLoadStep (selfPal : Nat → RGB) (x y : Int) (data : List Nat)
    (st : LoadState) (p : Nat × Nat) : LoadState :=
  if ¬ blockCornerIn x y p.1 p.2 then
    { pos := st.pos + 2048, img := st.img }
  else
    { pos := st.pos + 2048,
      img := fun u v =>
        if p.1 ≤ u ∧ u < p.1 + 64 ∧ p.2 ≤ v ∧ v < p.2 + 64 then
          decodeBlockPixel selfPal (fun i => data.getD (st.pos + i) 0)
            (u - p.1) (v - p.2)
        else st.img u v }

/-- The sub-block offsets visited by BigChunk.load in order: the outer
loop runs cy over 0, 64, ..., 896 and the inner loop runs cx over the
same values, so the visit order is row-major over a 15 by 15 grid. -/
def blockOffsets : List (Nat × Nat) :=
  (List.range 15).flatMap (fun r =>
    (List.range 15).map (fun c => (c * 64, r * 64)))

/-- Embedding of BigChunk.load, the method inherited unchanged by
BigChunkPP. The argument pixelcanvasPal is the global table
colors.pixelcanvas whose entry 1 is hardcoded in the background fill
Image.new of the 960 by 960 raster; selfPal is the table behind the
dynamic attribute self.palette used for the pasted blocks, which is the
pixelcanvas table for BigChunk and the pixelplace table for BigChunkPP.
Both tables are external constant data and are passed in abstractly. -/
def bigChunkLoadMethod (pixelcanvasPal selfPal : Nat → RGB) (x y : Int)
    (data : List Nat) : LoadState :=
  blockOffsets.foldl (bigChunkLoadStep selfPal x y data)
    { pos := 0, img := fun _ _ => pixelcanvasPal 1 }

/-- BigChunk.load: self.palette is built from the pixelcanvas table, so
background and block palette both resolve in the pixelcanvas table. -/
def bigChunkLoad (pixelcanvasPal : Nat → RGB) (x y : Int)
    (data : List Nat) : LoadState :=
  bigChunkLoadMethod pixelcanvasPal pixelcanvasPal x y data

/-- BigChunkPP.load, inherited from BigChunk: self.palette is built from
the pixelplace table while the background fill still reads the global
pixelcanvas table. -/
def bigChunkPPLoad (pixelcanvasPal pixelplacePal : Nat → RGB) (x y : Int)
    (data : List Nat) : LoadState :=
  bigChunkLoadMethod pixelcanvasPal pixelplacePal x y data

/-- Whether pixel (u, v) of the destination raster lies inside the 64 by
64 region pasted for the sub-block at offset p. -/
def inRegion (p : Nat × Nat) (u v : Nat) : Prop :=
  p.1 ≤ u ∧ u < p.1 + 64 ∧ p.2 ≤ v ∧ v < p.2 + 64

theorem loadStep_pos (selfPal : Nat → RGB) (x y : Int) (data : List Nat)
    (st : LoadState) (p : Nat × Nat) :
    (bigChunkLoadStep selfPal x y data st p).pos = st.pos + 2048 := by
  unfold bigChunkLoadStep
  split <;> rfl

theorem foldl_loadStep_pos (selfPal : Nat → RGB) (x y : Int)
    (data : List Nat) (l : List (Nat × Nat)) (st : LoadState) :
    (l.foldl (bigChunkLoadStep selfPal x y data) st).pos
      = st.pos + 2048 * l.length := by
  induction l generalizing st with
  | nil => simp
  | cons p l ih =>
    rw [List.foldl_cons, ih, loadStep_pos]
    simp
    ring

theorem loadStep_skip (selfPal : Nat → RGB) (x y : Int) (data : List Nat)
    (st : LoadState) (p : Nat × Nat) (h : ¬ blockCornerIn x y p.1 p.2) :
    bigChunkLoadStep selfPal x y data st p
      = { pos := st.pos + 2048, img := st.img } := by
  unfold bigChunkLoadStep
  rw [if_pos h]

theorem loadStep_paste_img (selfPal : Nat → RGB) (x y : Int)
    (data : List Nat) (st : LoadState) (p : Nat × Nat) (u v : Nat)
    (h : blockCornerIn x y p.1 p.2) (hin : inRegion p u v) :
    (bigChunkLoadStep selfPal x y data st p).img u v
      = decodeBlockPixel selfPal (fun i => data.getD (st.pos + i) 0)
          (u - p.1) (v - p.2) := by
  unfold bigChunkLoadStep
  rw [if_neg (fun hc => hc h)]
  simp only
  exact if_pos hin

theorem loadStep_img_out (selfPal : Nat → RGB) (x y : Int)
    (data : List Nat) (st : LoadState) (p : Nat × Nat) (u v : Nat)
    (h : ¬ inRegion p u v) :
    (bigChunkLoadStep selfPal x y data st p).img u v = st.img u v := by
  unfold bigChunkLoadStep
  split
  · rfl
  · simp only
    rw [if_neg]
    exact fun hc => h hc

theorem foldl_img_untouched (selfPal : Nat → RGB) (x y : Int)
    (data : List Nat) (l : List (Nat × Nat)) (st : LoadState) (u v : Nat)
    (h : ∀ p ∈ l, ¬ inRegion p u v) :
    (l.foldl (bigChunkLoadStep selfPal x y data) st).img u v
      = st.img u v := by
  induction l generalizing st with
  | nil => rfl
  | cons p l ih =>
    rw [List.foldl_cons, ih _ (fun q hq => h q (List.mem_cons_of_mem p hq))]
    exact loadStep_img_out selfPal x y data st p u v
      (h p (List.mem_cons_self p l))

theorem foldl_img_all_skip (selfPal : Nat → RGB) (x y : Int)
    (data : List Nat) (l : List (Nat × Nat)) (st : LoadState) (u v : Nat)
    (h : ∀ p ∈ l, ¬ blockCornerIn x y p.1 p.2) :
    (l.foldl (bigChunkLoadStep selfPal x y data) st).img u v
      = st.img u v := by
  induction l generalizing st with
  | nil => rfl
  | cons p l ih =>
    rw [List.foldl_cons, ih _ (fun q hq => h q (List.mem_cons_of_mem p hq))]
    unfold bigChunkLoadStep
    rw [if_pos (h p (List.mem_cons_self p l))]

theorem foldl_grid_img (selfPal : Nat → RGB) (x y : Int) (data : List Nat)
    (N : Nat) (f : Nat → Nat × Nat) (st : LoadState) (u v : Nat) (n : Nat)
    (hn : n < N)
    (hother : ∀ m, m < N → m ≠ n → ¬ inRegion (f m) u v) :
    (((List.range N).map f).foldl (bigChunkLoadStep selfPal x y data) st).img u v
      = (bigChunkLoadStep selfPal x y data
          (((List.range n).map f).foldl (bigChunkLoadStep selfPal x y data) st)
          (f n)).img u v := by
  induction N with
  | zero => omega
  | succ N ih =>
    rw [List.range_succ, List.map_append, List.foldl_append,
      List.map_cons, List.map_nil, List.foldl_cons, List.foldl_nil]
    rcases Nat.lt_or_ge n N with hlt | hge
    · rw [loadStep_img_out selfPal x y data _ (f N) u v
        (hother N (Nat.lt_succ_self N) (by omega))]
      exact ih hlt (fun m hm hmn => hother m (by omega) hmn)
    · have hnN : n = N := by omega
      subst hnN
      rfl

theorem blockOffsets_eq :
    blockOffsets = (List.range 225).map
      (fun k => ((k % 15) * 64, (k / 15) * 64)) := by
  unfold blockOffsets
  rw [grid_flatMap_eq (fun c r => (c * 64, r * 64))]

theorem inRegion_block_iff (c r bx rq px py : Nat) (hpx : px < 64)
    (hpy : py < 64) :
    inRegion (c * 64, r * 64) (bx * 64 + px) (rq * 64 + py) ↔
      c = bx ∧ r = rq := by
  unfold inRegion
  constructor
  · rintro ⟨h1, h2, h3, h4⟩
    omega
  · rintro ⟨rfl, rfl⟩
    omega

/-- The core description of the BigChunk decode loop, shared by both 960
by 960 variants: every sub-block consumes exactly 2048 source bytes, a
sub-block failing the canvas-bound test leaves its 64 by 64 region at
the background fill taken from entry 1 of the pixelcanvas table, and a
sub-block passing it is decoded from the 2048 bytes at stream offset
2048 times its row-major index through the dynamic palette. -/
theorem bigChunkLoadMethod_block (pc sp : Nat → RGB) (x y : Int)
    (data : List Nat) (bx rq px py : Nat) (hbx : bx < 15) (hrq : rq < 15)
    (hpx : px < 64) (hpy : py < 64) :
    (bigChunkLoadMethod pc sp x y data).pos = 225 * 2048 ∧
    (¬ blockCornerIn x y (bx * 64) (rq * 64) →
      (bigChunkLoadMethod pc sp x y data).img (bx * 64 + px) (rq * 64 + py)
        = pc 1) ∧
    (blockCornerIn x y (bx * 64) (rq * 64) →
      (bigChunkLoadMethod pc sp x y data).img (bx * 64 + px) (rq * 64 + py)
        = decodeBlockPixel sp
            (fun i => data.getD (2048 * (15 * rq + bx) + i) 0) px py) := by
  have hpos : (bigChunkLoadMethod pc sp x y data).pos = 225 * 2048 := by
    unfold bigChunkLoadMethod
    rw [foldl_loadStep_pos]
    have hlen : blockOffsets.length = 225 := by
      rw [blockOffsets_eq, List.length_map, List.length_range]
    show (0 : Nat) + 2048 * blockOffsets.length = 225 * 2048
    rw [hlen]
  set n := rq * 15 + bx with hn
  have hnlt : n < 225 := by omega
  have hmod : n % 15 = bx := by omega
  have hdivn : n / 15 = rq := by omega
  have hother : ∀ m, m < 225 → m ≠ n →
      ¬ inRegion ((fun k => ((k % 15) * 64, (k / 15) * 64)) m)
        (bx * 64 + px) (rq * 64 + py) := by
    intro m hm hmn hin
    rw [inRegion_block_iff _ _ _ _ _ _ hpx hpy] at hin
    omega
  set pre := ((List.range n).map
      (fun k => ((k % 15) * 64, (k / 15) * 64))).foldl
    (bigChunkLoadStep sp x y data)
    { pos := 0, img := fun _ _ => pc 1 } with hpre
  have hmain :
      (bigChunkLoadMethod pc sp x y data).img (bx * 64 + px) (rq * 64 + py)
        = (bigChunkLoadStep sp x y data pre
            (n % 15 * 64, n / 15 * 64)).img (bx * 64 + px) (rq * 64 + py) := by
    unfold bigChunkLoadMethod
    rw [blockOffsets_eq]
    exact foldl_grid_img sp x y data 225 _ _ _ _ n hnlt hother
  rw [hmod, hdivn] at hmain
  have hprepos : pre.pos = 2048 * n := by
    rw [hpre, foldl_loadStep_pos]
    simp
  have hpreimg : pre.img (bx * 64 + px) (rq * 64 + py) = pc 1 := by
    rw [hpre]
    rw [foldl_img_untouched sp x y data _ _ _ _ (fun q hq hreg => ?_)]
    obtain ⟨m, hm, rfl⟩ := List.mem_map.mp hq
    have hmlt := List.mem_range.mp hm
    rw [inRegion_block_iff _ _ _ _ _ _ hpx hpy] at hreg
    omega
  refine ⟨hpos, fun hout => ?_, fun hin => ?_⟩
  · rw [hmain, loadStep_skip sp x y data pre _ hout]
    exact hpreimg
  · rw [hmain, loadStep_paste_img sp x y data pre _ _ _ hin
      (by unfold inRegion; constructor <;> omega)]
    rw [hprepos]
    have h1 : bx * 64 + px - bx * 64 = px := by omega
    have h2 : rq * 64 + py - rq * 64 = py := by omega
    have h3 : (fun i => data.getD (2048 * n + i) 0)
        = (fun i => data.getD (2048 * (15 * rq + bx) + i) 0) := by
      funext i
      congr 1
      omega
    rw [h1, h2, h3]

/-- Whether any pixel of the 64 by 64 sub-block at local offset
(bx * 64, rq * 64) falls outside the global canvas bound of plus or
minus 1000000 in either axis, for the chunk at grid coordinate (x, y). -/
def blockAnyPartOut (x y : Int) (bx rq : Nat) : Prop :=
  bigChunkPX x + (bx * 64 : Nat) < -1000000 ∨
  1000000 ≤ bigChunkPX x + (bx * 64 : Nat) + 63 ∨
  bigChunkPY y + (rq * 64 : Nat) < -1000000 ∨
  1000000 ≤ bigChunkPY y + (rq * 64 : Nat) + 63

instance (x y : Int) (bx rq : Nat) : Decidable (blockAnyPartOut x y bx rq) := by
  unfold blockAnyPartOut
  infer_instance

/-- The corner test of the source coincides with the any-part test of
the design document, because sub-block corners and the canvas bound are
all multiples of 64: the corner is x * 960 - 448 + bx * 64 and 1000000
is divisible by 64, so a block crosses neither bound properly. -/
theorem cornerIn_iff_not_anyOut (x y : Int) (bx rq : Nat) :
    blockCornerIn x y (bx * 64) (rq * 64) ↔ ¬ blockAnyPartOut x y bx rq := by
  unfold blockCornerIn blockAnyPartOut bigChunkPX bigChunkPY
  constructor
  · intro h hc
    omega
  · intro h
    push_neg at h
    omega

/-- C4: BigChunk.load fills the 960 by 960 raster with the pixelcanvas
background color at entry 1, visits the 15 by 15 grid of 64 by 64
sub-blocks in row-major order consuming exactly 2048 source bytes per
sub-block (total cursor advance 225 * 2048), skips without decoding
every sub-block any part of whose pixel footprint leaves the plus or
minus 1000000 canvas bound, leaving its region at the background fill,
and decodes every other sub-block from its own 2048 bytes taken at 2048
times its row-major index; a skip is not an error and decoding
continues with the following sub-blocks. -/
theorem c4_bigchunk_load (pc : Nat → RGB) (x y : Int) (data : List Nat)
    (bx rq px py : Nat) (hbx : bx < 15) (hrq : rq < 15) (hpx : px < 64)
    (hpy : py < 64) :
    (bigChunkLoad pc x y data).pos = 225 * 2048 ∧
    (blockAnyPartOut x y bx rq →
      (bigChunkLoad pc x y data).img (bx * 64 + px) (rq * 64 + py)
        = pc 1) ∧
    (¬ blockAnyPartOut x y bx rq →
      (bigChunkLoad pc x y data).img (bx * 64 + px) (rq * 64 + py)
        = decodeBlockPixel pc
            (fun i => data.getD (2048 * (15 * rq + bx) + i) 0) px py) := by
  obtain ⟨h1, h2, h3⟩ :=
    bigChunkLoadMethod_block pc pc x y data bx rq px py hbx hrq hpx hpy
  refine ⟨h1, fun hout => h2 ?_, fun hin => h3 ?_⟩
  · exact fun hc => (cornerIn_iff_not_anyOut x y bx rq).mp hc hout
  · exact (cornerIn_iff_not_anyOut x y bx rq).mpr hin

/-- C4 witness: the theorem applied at chunk (0, 0), sub-block (0, 0),
pixel (0, 0), with the empty byte stream and a constant palette. -/
theorem c4_bigchunk_load_witness :
    (bigChunkLoad (fun _ => RGB.mk 9 9 9) 0 0 []).pos = 225 * 2048 ∧
    (bigChunkLoad (fun _ => RGB.mk 9 9 9) 0 0 []).img (0 * 64 + 0) (0 * 64 + 0)
      = RGB.mk 9 9 9 := by
  obtain ⟨h1, _, h3⟩ := c4_bigchunk_load (fun _ => RGB.mk 9 9 9) 0 0 []
    0 0 0 0 (by norm_num) (by norm_num) (by norm_num) (by norm_num)
  exact ⟨h1, (h3 (by decide)).trans (by decide)⟩

/-- C9 counterexample: with a black pixelcanvas table and a white
pixelplace table, loading the out-of-canvas BigChunkPP chunk at grid
coordinate (2000, 2000) leaves pixel (0, 0) at black, the entry-1 color
of the pixelcanvas table, not at the white entry-1 color of its own
palette, refuting the claim that the background fill uses the variant's
own palette. -/
theorem c9_pp_background_counterexample :
    (bigChunkPPLoad (fun _ => RGB.mk 0 0 0) (fun _ => RGB.mk 255 255 255)
        2000 2000 []).img 0 0 = RGB.mk 0 0 0 ∧
    RGB.mk 0 0 0 ≠ RGB.mk 255 255 255 := by
  constructor
  · have h := foldl_img_all_skip (fun _ => RGB.mk 255 255 255) 2000 2000 []
      blockOffsets { pos := 0, img := fun _ _ => RGB.mk 0 0 0 } 0 0
      (fun p _ hc => by
        unfold blockCornerIn bigChunkPX at hc
        omega)
    exact h
  · decide

/-- C9 (amended): BigChunkPP shares the BigChunk geometry and decode
algorithm: its get_intersecting is the identical computation, its
inherited load advances the cursor identically and decodes pasted
sub-blocks through its own pixelplace palette, but the background fill
still comes from entry 1 of the global pixelcanvas table rather than
from its own palette. -/
theorem c9_pp_equivalence (pc pp : Nat → RGB) (x y : Int) (data : List Nat)
    (bx rq px py : Nat) (hbx : bx < 15) (hrq : rq < 15) (hpx : px < 64)
    (hpy : py < 64) :
    bigChunkPPGetIntersecting = bigChunkGetIntersecting ∧
    (bigChunkPPLoad pc pp x y data).pos = (bigChunkLoad pc x y data).pos ∧
    (blockAnyPartOut x y bx rq →
      (bigChunkPPLoad pc pp x y data).img (bx * 64 + px) (rq * 64 + py)
        = pc 1) ∧
    (¬ blockAnyPartOut x y bx rq →
      (bigChunkPPLoad pc pp x y data).img (bx * 64 + px) (rq * 64 + py)
        = decodeBlockPixel pp
            (fun i => data.getD (2048 * (15 * rq + bx) + i) 0) px py) := by
  obtain ⟨h1, h2, h3⟩ :=
    bigChunkLoadMethod_block pc pp x y data bx rq px py hbx hrq hpx hpy
  obtain ⟨g1, _, _⟩ :=
    bigChunkLoadMethod_block pc pc x y data bx rq px py hbx hrq hpx hpy
  refine ⟨rfl, ?_, fun hout => h2 ?_, fun hin => h3 ?_⟩
  · show (bigChunkLoadMethod pc pp x y data).pos
      = (bigChunkLoadMethod pc pc x y data).pos
    rw [h1, g1]
  · exact fun hc => (cornerIn_iff_not_anyOut x y bx rq).mp hc hout
  · exact (cornerIn_iff_not_anyOut x y bx rq).mpr hin

/-- C9 witness: the amended theorem applied at chunk (0, 0), sub-block
(0, 0), pixel (0, 0) with the empty stream and constant palettes. -/
theorem c9_pp_equivalence_witness :
    (bigChunkPPLoad (fun _ => RGB.mk 1 1 1) (fun _ => RGB.mk 2 2 2)
        0 0 []).img (0 * 64 + 0) (0 * 64 + 0) = RGB.mk 2 2 2 := by
  obtain ⟨_, _, _, h4⟩ := c9_pp_equivalence (fun _ => RGB.mk 1 1 1)
    (fun _ => RGB.mk 2 2 2) 0 0 [] 0 0 0 0
    (by norm_num) (by norm_num) (by norm_num) (by norm_num)
  exact (h4 (by decide)).trans (by decide)

/-- An indexed raster as produced by Image.frombytes in mode P followed
by putpalette: pixel values stay palette indices and the palette table
travels with the raster; nothing is resolved to RGB. -/
structure IndexedRaster where
  width : Nat
  height : Nat
  pixels : Nat → Nat → Nat
  palette : Nat → RGB

/-- Unpacking of the raw codec P;4 over a row-major buffer of the given
width: two pixels per byte, high nibble first. -/
def unpack4 (buf : List Nat) (w u v : Nat) : Nat :=
  let b := buf.getD ((v * w + u) / 2) 0
  if u % 2 = 0 then b / 16 else b % 16

/-- Embedding of ChunkPz.load. The three external stages are passed as
abstract functions: lzsDecompressFromBase64 stands for the method of
utils/lzstring.py, which is modelled from the spec as the Reversible
String Decompressor, a pure function recovering the original text from
its base64-style encoding and failing on malformed input;
jsonLoads stands for the standard-library JSON parser applied to the
buffer wrapped in square brackets as a single JSON array literal,
yielding a numeric byte array; lz4FrameDecompress stands for the LZ4
frame decompressor of those bytes. The decoded buffer is then read by
Image.frombytes as 512 by 512 4-bit packed palette indices (raw codec
P;4) and putpalette attaches the pixelzone table (repeated 16 times, so
index i resolves to entry i mod 16); the raster stays indexed. Failure
of any stage aborts the load. -/
def chunkPzLoad (pzPal : Nat → RGB)
    (lzsDecompressFromBase64 : String → Option String)
    (jsonLoads : String → Option (List Nat))
    (lz4FrameDecompress : List Nat → Option (List Nat))
    (data : String) : Option IndexedRaster :=
  match lzsDecompressFromBase64 data with
  | none => none
  | some tmp1 =>
    match jsonLoads ("[" ++ tmp1 ++ "]") with
    | none => none
    | some tmp2 =>
      match lz4FrameDecompress tmp2 with
      | none => none
      | some tmp3 =>
        some { width := 512, height := 512,
               pixels := fun u v => unpack4 tmp3 512 u v,
               palette := fun i => pzPal (i % 16) }

/-- C3: ChunkPz.load succeeds exactly when the pipeline of the reversible
string decompressor, then JSON parsing of the buffer wrapped as a single
array literal, then LZ4 frame decompression, succeeds in that order on
that data flow, and the result is the 512 by 512 raster of 4-bit packed
palette indices unpacked from the final buffer, still indexed, with the
pixelzone palette attached. -/
theorem c3_pz_load_pipeline (pzPal : Nat → RGB)
    (lzs : String → Option String) (jsonL : String → Option (List Nat))
    (lz4d : List Nat → Option (List Nat)) (data : String)
    (r : IndexedRaster) :
    chunkPzLoad pzPal lzs jsonL lz4d data = some r ↔
      ∃ tmp1 tmp2 tmp3,
        lzs data = some tmp1 ∧
        jsonL ("[" ++ tmp1 ++ "]") = some tmp2 ∧
        lz4d tmp2 = some tmp3 ∧
        r = { width := 512, height := 512,
              pixels := fun u v => unpack4 tmp3 512 u v,
              palette := fun i => pzPal (i % 16) } := by
  constructor
  · intro h
    cases h1 : lzs data with
    | none =>
      simp only [chunkPzLoad, h1] at h
      exact Option.noConfusion h
    | some tmp1 =>
      cases h2 : jsonL ("[" ++ tmp1 ++ "]") with
      | none =>
        simp only [chunkPzLoad, h1, h2] at h
        exact Option.noConfusion h
      | some tmp2 =>
        cases h3 : lz4d tmp2 with
        | none =>
          simp only [chunkPzLoad, h1, h2, h3] at h
          exact Option.noConfusion h
        | some tmp3 =>
          simp only [chunkPzLoad, h1, h2, h3, Option.some.injEq] at h
          exact ⟨tmp1, tmp2, tmp3, rfl, h2, h3, h.symm⟩
  · rintro ⟨tmp1, tmp2, tmp3, h1, h2, h3, rfl⟩
    simp only [chunkPzLoad, h1, h2, h3]

/-- The board metadata record supplied by set_board_info. -/
structure BoardInfo where
  width : Nat
  height : Nat

/-- The failure kind of the board variant when its metadata is missing:
in the source _info is None until set_board_info runs, and subscripting
None fails; the design document names this failure NotConfigured. -/
inductive ChunkError
  | notConfigured
deriving DecidableEq, Repr

/-- Embedding of PxlsBoard.height, which subscripts self._info; the
lookup fails when the metadata was never supplied. -/
def pxlsBoardHeight (info : Option BoardInfo) : Except ChunkError Nat :=
  match info with
  | none => Except.error ChunkError.notConfigured
  | some i => Except.ok i.height

/-- Embedding of PxlsBoard.width, which subscripts self._info; the
lookup fails when the metadata was never supplied. -/
def pxlsBoardWidth (info : Option BoardInfo) : Except ChunkError Nat :=
  match info with
  | none => Except.error ChunkError.notConfigured
  | some i => Except.ok i.width

/-- Embedding of PxlsBoard.load: Image.frombytes in mode P with the raw
codec P reads width times height bytes row-major, one byte per pixel
with stride width, at the dimensions subscripted from self._info, and
putpalette attaches the pxlsspace table; the subscripts fail when the
metadata was never supplied. -/
def pxlsBoardLoad (pxlsPal : Nat → RGB) (info : Option BoardInfo)
    (data : List Nat) : Except ChunkError IndexedRaster :=
  match info with
  | none => Except.error ChunkError.notConfigured
  | some i =>
    Except.ok { width := i.width, height := i.height,
                pixels := fun u v => data.getD (v * i.width + u) 0,
                palette := pxlsPal }

/-- C8: when the board metadata was never supplied, reading the board's
width or height and calling load all fail with the NotConfigured
failure, the only failure kind of this component, and never succeed; if
the metadata is present they succeed with its dimensions. -/
theorem c8_not_configured (pxlsPal : Nat → RGB) (info : Option BoardInfo)
    (data : List Nat) (h : info = none) :
    pxlsBoardHeight info = Except.error ChunkError.notConfigured ∧
    pxlsBoardWidth info = Except.error ChunkError.notConfigured ∧
    pxlsBoardLoad pxlsPal info data
      = Except.error ChunkError.notConfigured ∧
    (∀ i, pxlsBoardHeight (some i) = Except.ok i.height) ∧
    (∀ i, pxlsBoardWidth (some i) = Except.ok i.width) := by
  subst h
  exact ⟨rfl, rfl, rfl, fun i => rfl, fun i => rfl⟩

/-- C8 witness: the theorem applied to the unset metadata state. -/
theorem c8_not_configured_witness :
    pxlsBoardHeight none = Except.error ChunkError.notConfigured :=
  (c8_not_configured (fun _ => RGB.mk 0 0 0) none [] rfl).1

end Chunks
